import Mathlib

/-!
Verification development for the Solana RPC proxy service: validator
registry construction, endpoint building, node selection, request
forwarding, and the error taxonomy.  The Rust source is embedded
shallowly: machine state (the thread-local RNG, the upstream HTTP
exchange, the URL parser of the `url` crate) is passed explicitly as
parameters, and every fallible operation returns an `Except` or
`Option` value.
-/

namespace SolanaApi

/-! ## String helpers

`strTrim` embeds Rust `str::trim` (whitespace from both ends) and
`strToLower` embeds `str::to_ascii_lowercase` (Lean `Char.toLower` only
lowers ASCII uppercase letters, matching the Rust ASCII variant). -/

def trimChars (l : List Char) : List Char :=
  ((l.dropWhile Char.isWhitespace).reverse.dropWhile Char.isWhitespace).reverse

def strTrim (s : String) : String :=
  String.mk (trimChars s.data)

def strToLower (s : String) : String :=
  String.mk (s.data.map Char.toLower)

/-- A single-quote character as a string, used in error messages. -/
def sq : String :=
  String.mk [Char.ofNat 39]

/-- Shared helper for the repeated Rust pattern
`opt.and_then(|v| { let t = v.trim(); if t.is_empty() { None } else { Some(t) } })`. -/
def nonBlank (value : String) : Option String :=
  if strTrim value = "" then none else some (strTrim value)

/-! ## URL model

The `url` crate is external to the repository; we model a parsed URL by
the three observations the source makes of it: `scheme()`, `host()` and
`port()`.  As in the `url` crate, `port = none` both for an absent port
and for a port equal to the scheme's default (80 for http, 443 for
https); `set_port` normalizes a default port away and fails when the
URL has no host. -/

structure Url where
  scheme : String
  host : Option String
  port : Option Nat
  deriving Repr, DecidableEq

def defaultPortOf (scheme : String) : Option Nat :=
  if scheme = "http" then some 80
  else if scheme = "https" then some 443
  else none

def Url.setPort (u : Url) (p : Nat) : Option Url :=
  if u.host = none then none
  else if defaultPortOf u.scheme = some p then some { u with port := none }
  else some { u with port := some p }

/-! ## Data model -/

structure Validator where
  name : String
  location : String
  rpc_url : Url
  deriving Repr, DecidableEq

structure ValidatorSummary where
  name : String
  location : String
  deriving Repr, DecidableEq

def Validator.summary (v : Validator) : ValidatorSummary :=
  ValidatorSummary.mk v.name v.location

inductive RegistryError
  | InvalidRecord (row : Nat) (msg : String)
  | DuplicateName (name : String)
  | Empty
  deriving Repr, DecidableEq

inductive SelectionError
  | UnknownValidator (name : String)
  | UnknownLocation (location : String)
  | Empty
  deriving Repr, DecidableEq

/-- One deserialized CSV row (`ValidatorCsvRecord` in the source), with
its serde aliases already folded into the field names. -/
structure ValidatorCsvRecord where
  name : Option String
  rpc_endpoint : Option String
  endpoint_host : Option String
  endpoint_port : Option Nat
  protocol : Option String
  location : Option String
  deriving Repr, DecidableEq

def normalize_key (value : String) : String :=
  strToLower (strTrim value)

def default_protocol : String :=
  "http"

def default_rpc_port : Nat :=
  8899

def strContainsChar (s : String) (c : Char) : Bool :=
  s.data.contains c

def strStarts (s pre : String) : Bool :=
  pre.data.isPrefixOf s.data

def strEnds (s suf : String) : Bool :=
  suf.data.reverse.isPrefixOf s.data.reverse

def prepare_host_for_url (host : String) : String :=
  let trimmed := strTrim host
  if strContainsChar trimmed ':' && !strContainsChar trimmed '.' &&
      !strStarts trimmed "[" && !strEnds trimmed "]" then
    "[" ++ trimmed ++ "]"
  else
    trimmed

/-- One step of the sanitizing map in `generate_default_name`:
ASCII-alphanumeric characters are lower-cased, everything else becomes
a dash. -/
def sanitizeChar (c : Char) : Char :=
  if c.isAlphanum then c.toLower else '-'

/-- Rust `str::trim_matches('-')`: drop dashes from both ends. -/
def trimDashes (l : List Char) : List Char :=
  ((l.dropWhile (· == '-')).reverse.dropWhile (· == '-')).reverse

def generate_default_name (location : String) (ordinal : Nat) : String :=
  let sanitized := (strTrim location).data.map sanitizeChar
  let cleaned := String.mk (trimDashes sanitized)
  if cleaned = "" then "validator-" ++ toString ordinal
  else cleaned ++ "-" ++ toString ordinal

/-! ## Endpoint builder (`Validator::try_from_record`)

`parse` stands for `Url::parse` of the external `url` crate and is
passed explicitly; `none` models a parse error. -/

/-- The endpoint-resolution block of `try_from_record`: explicit
`rpc_url` first, else build `<protocol>://<host>` from the host column
and apply the provided or default port when the candidate has none. -/
def resolveUrl (parse : String → Option Url) (record : ValidatorCsvRecord)
    (row_number : Nat) (protocol : String) : Except RegistryError Url :=
  match record.rpc_endpoint.bind nonBlank with
  | some endpoint =>
    match parse endpoint with
    | some u => .ok u
    | none => .error (.InvalidRecord row_number ("invalid url " ++ sq ++ endpoint ++ sq))
  | none =>
    match record.endpoint_host.bind nonBlank with
    | some host =>
      match parse (protocol ++ "://" ++ prepare_host_for_url host) with
      | none => .error (.InvalidRecord row_number ("invalid host " ++ sq ++ host ++ sq))
      | some parsed =>
        match parsed.port with
        | some _ => .ok parsed
        | none =>
          match parsed.setPort (record.endpoint_port.getD default_rpc_port) with
          | some u => .ok u
          | none => .error (.InvalidRecord row_number "invalid port")
    | none => .error (.InvalidRecord row_number "missing rpc_url or host/ip column")

/-- The post-validation block of `try_from_record`: scheme restricted to
http/https, host required, default port 8899 applied when absent. -/
def postValidate (row_number : Nat) (url : Url) : Except RegistryError Url :=
  if url.scheme ≠ "http" ∧ url.scheme ≠ "https" then
    .error (.InvalidRecord row_number ("unsupported url scheme " ++ url.scheme))
  else if url.host = none then
    .error (.InvalidRecord row_number "url is missing host")
  else
    match url.port with
    | some _ => .ok url
    | none =>
      match url.setPort default_rpc_port with
      | some u => .ok u
      | none => .error (.InvalidRecord row_number "invalid port")

/-- The local `location` binding of `try_from_record`: the trimmed
`location` column, defaulted to "unspecified". -/
def recLocation (record : ValidatorCsvRecord) : String :=
  strTrim (record.location.getD "unspecified")

/-- The local `protocol` binding of `try_from_record`: the trimmed,
ASCII-lower-cased `protocol` column, defaulted to `http`. -/
def recProtocol (record : ValidatorCsvRecord) : String :=
  strToLower (strTrim (record.protocol.getD default_protocol))

def Validator.try_from_record (parse : String → Option Url)
    (record : ValidatorCsvRecord) (row_number : Nat) (ordinal : Nat) :
    Except RegistryError Validator :=
  if recProtocol record ≠ "http" ∧ recProtocol record ≠ "https" then
    .error (.InvalidRecord row_number
      ("unsupported protocol " ++ sq ++ recProtocol record ++ sq))
  else
    match resolveUrl parse record row_number (recProtocol record) with
    | .error e => .error e
    | .ok url =>
      match postValidate row_number url with
      | .error e => .error e
      | .ok url2 =>
        .ok (Validator.mk
          ((record.name.bind nonBlank).getD
            (generate_default_name (recLocation record) ordinal))
          (recLocation record) url2)

/-! ## Registry (`ValidatorRegistry`)

The two `HashMap` indices are embedded as association lists; the source
only builds them once and reads them back with `get`, so the access
pattern is fully captured by `List.lookup`. -/

structure ValidatorRegistry where
  validators : List Validator
  index_by_name : List (String × Nat)
  index_by_location : List (String × List Nat)
  deriving Repr, DecidableEq

/-- Embeds `index_by_location.entry(key).or_default().push(idx)`: append `idx`
to the group of `key`, creating the group when absent. -/
def locInsert (key : String) (idx : Nat) : List (String × List Nat) → List (String × List Nat)
  | [] => [(key, [idx])]
  | (k, is) :: rest =>
    if k = key then (k, is ++ [idx]) :: rest
    else (k, is) :: locInsert key idx rest

/-- The index-building loop of `ValidatorRegistry::new`.  `idx` is the
position of the head of the remaining list; a name-key collision aborts
with `DuplicateName` carrying the display name of the later record. -/
def buildIndexes : List Validator → Nat → List (String × Nat) → List (String × List Nat) →
    Except RegistryError (List (String × Nat) × List (String × List Nat))
  | [], _, nameAcc, locAcc => .ok (nameAcc, locAcc)
  | v :: rest, idx, nameAcc, locAcc =>
    match List.lookup (normalize_key v.name) nameAcc with
    | some _ => .error (.DuplicateName v.name)
    | none =>
      buildIndexes rest (idx + 1) ((normalize_key v.name, idx) :: nameAcc)
        (locInsert (normalize_key v.location) idx locAcc)

def ValidatorRegistry.new (validators : List Validator) :
    Except RegistryError ValidatorRegistry :=
  if validators = [] then .error .Empty
  else
    match buildIndexes validators 0 [] [] with
    | .error e => .error e
    | .ok (n, l) => .ok (ValidatorRegistry.mk validators n l)

/-- The loop of `ValidatorRegistry::from_reader` minus the CSV
decoding: row numbers start at 2 (header row), and the ordinal passed
to `try_from_record` is the count of already-accepted records plus
one. -/
def loadRecords (parse : String → Option Url) :
    List ValidatorCsvRecord → Nat → List Validator → Except RegistryError (List Validator)
  | [], _, acc => .ok acc
  | record :: rest, rowIdx, acc =>
    match Validator.try_from_record parse record (rowIdx + 2) (acc.length + 1) with
    | .error e => .error e
    | .ok v => loadRecords parse rest (rowIdx + 1) (acc ++ [v])

/-- Embeds `ValidatorRegistry::from_reader`, with the CSV rows already
deserialized into records. -/
def from_records (parse : String → Option Url) (records : List ValidatorCsvRecord) :
    Except RegistryError ValidatorRegistry :=
  match loadRecords parse records 0 [] with
  | .error e => .error e
  | .ok validators => ValidatorRegistry.new validators

def ValidatorRegistry.summaries (r : ValidatorRegistry) : List ValidatorSummary :=
  r.validators.map Validator.summary

/-! ## Selection

`SliceRandom::choose` draws a uniformly random index into the slice; we
pass the draw explicitly as a natural number `k` and reduce it modulo
the slice length, so quantifying over `k` ranges over every possible
outcome of the RNG. -/

def chooseList {α : Type} (l : List α) (k : Nat) : Option α :=
  if l.isEmpty then none else l.get? (k % l.length)

def ValidatorRegistry.get_by_name (r : ValidatorRegistry) (name : String) : Option Validator :=
  (List.lookup (normalize_key name) r.index_by_name).bind fun idx => r.validators.get? idx

def ValidatorRegistry.random_in_location (r : ValidatorRegistry) (location : String)
    (k : Nat) : Option Validator :=
  (List.lookup (normalize_key location) r.index_by_location).bind fun indexes =>
    (chooseList indexes k).bind fun idx => r.validators.get? idx

def ValidatorRegistry.random (r : ValidatorRegistry) (k : Nat) : Option Validator :=
  chooseList r.validators k

def ValidatorRegistry.select (r : ValidatorRegistry) (name location : Option String)
    (k : Nat) : Except SelectionError Validator :=
  match name.bind nonBlank with
  | some n =>
    match r.get_by_name n with
    | some v => .ok v
    | none => .error (.UnknownValidator n)
  | none =>
    match location.bind nonBlank with
    | some l =>
      match r.random_in_location l k with
      | some v => .ok v
      | none => .error (.UnknownLocation l)
    | none =>
      match r.random k with
      | some v => .ok v
      | none => .error .Empty

/-! ## Error taxonomy (`errors.rs`) -/

inductive AppError
  | BadRequest (msg : String)
  | Selection (msg : String)
  | Upstream (msg : String)
  | Internal (msg : String)
  deriving Repr, DecidableEq

/-- The `Display` implementation of `SelectionError` (thiserror
`#[error]` strings). -/
def SelectionError.message : SelectionError → String
  | .UnknownValidator n => "validator " ++ sq ++ n ++ sq ++ " not found"
  | .UnknownLocation l => "no validator available for location " ++ sq ++ l ++ sq
  | .Empty => "no validators available"

/-- The `Display` implementation of `AppError`. -/
def AppError.message : AppError → String
  | .BadRequest m => m
  | .Selection m => "validator selection failed: " ++ m
  | .Upstream m => "upstream request failed: " ++ m
  | .Internal m => "internal error: " ++ m

/-- Embeds `ResponseError::status_code`. -/
def AppError.status_code : AppError → Nat
  | .BadRequest _ => 400
  | .Selection _ => 400
  | .Upstream _ => 502
  | .Internal _ => 500

/-- Minimal JSON value model, enough for the serialized response
bodies. -/
inductive Json
  | str (s : String)
  | obj (fields : List (String × Json))

/-- Embeds `ResponseError::error_response`: the HTTP status together with the
serialized `ErrorResponse` body. -/
def error_response (e : AppError) : Nat × Json :=
  (e.status_code, Json.obj [("error", Json.str e.message)])

/-- Embeds `From<SelectionError> for AppError`. -/
def AppError.ofSelection (e : SelectionError) : AppError :=
  AppError.Selection e.message

/-! ## Routes and the forwarder (`routes.rs`) -/

inductive Method
  | GET
  | POST
  deriving Repr, DecidableEq, BEq

inductive Handler
  | healthCheck
  | listValidators
  | indexInfo
  | proxyRpc
  deriving Repr, DecidableEq, BEq

/-- The routing table registered by `configure`. -/
def configure : List (String × Method × Handler) :=
  [("/health", (Method.GET, Handler.healthCheck)),
   ("/validators", (Method.GET, Handler.listValidators)),
   ("/", (Method.GET, Handler.indexInfo)),
   ("/", (Method.POST, Handler.proxyRpc))]

/-- Resolve a path and method against the routing table. -/
def route (path : String) (m : Method) : Option Handler :=
  (configure.find? fun e => e.1 == path && e.2.1 == m).map fun e => e.2.2

/-- Query-parameter extraction for `ProxyQuery` (serde aliases:
`validator`/`server` and `location`/`region`). -/
def queryValidator (pairs : List (String × String)) : Option String :=
  (List.lookup "validator" pairs).orElse fun _ => List.lookup "server" pairs

def queryLocation (pairs : List (String × String)) : Option String :=
  (List.lookup "location" pairs).orElse fun _ => List.lookup "region" pairs

def MAX_UPSTREAM_BODY : Nat :=
  32 * 1024 * 1024

/-- Result of reading the upstream response body stream. -/
inductive UpstreamBody
  | ok (bytes : List Nat)
  | readError (msg : String)

/-- Observable outcome of one upstream HTTP exchange: a transport-level
send failure, or a response with status, optional content type and a
body stream. -/
inductive UpstreamOutcome
  | sendError (msg : String)
  | response (status : Nat) (contentType : Option String) (body : UpstreamBody)

/-- A successful relayed response as handed back to the caller. -/
structure HttpSuccess where
  status : Nat
  contentType : Option String
  body : List Nat
  deriving Repr, DecidableEq

/-- The message text of awc `PayloadError::Overflow` (payload larger
than the configured limit). -/
def overflowMsg : String :=
  "a payload reached size limit"

/-- Embeds `upstream_resp.body().limit(cap)`: collect the body, failing on a
read error or when the body exceeds the cap. -/
def readLimited : UpstreamBody → Nat → Except String (List Nat)
  | .ok bytes, limit => if limit < bytes.length then .error overflowMsg else .ok bytes
  | .readError m, _ => .error m

def upstreamUnavailableMsg (name emsg : String) : String :=
  "node " ++ sq ++ name ++ sq ++ " is unavailable: " ++ emsg

/-- The `proxy_rpc` handler.  The upstream exchange is a parameter
mapping the selected node's endpoint and the forwarded body to an
outcome; `k` is the RNG draw consumed by `select`. -/
def proxy_rpc (r : ValidatorRegistry) (qvalidator qlocation : Option String) (k : Nat)
    (body : List Nat) (upstream : Url → List Nat → UpstreamOutcome) :
    Except AppError HttpSuccess :=
  match r.select qvalidator qlocation k with
  | .error e => .error (AppError.ofSelection e)
  | .ok selected =>
    match upstream selected.rpc_url body with
    | .sendError e => .error (.Upstream (upstreamUnavailableMsg selected.name e))
    | .response status contentType ub =>
      match readLimited ub MAX_UPSTREAM_BODY with
      | .error e => .error (.Upstream (upstreamUnavailableMsg selected.name e))
      | .ok bytes => .ok (HttpSuccess.mk status contentType bytes)

deriving instance DecidableEq for Except

/-! ## Helper lemmas: trimming and normalization -/

theorem trimChars_eq_rdrop (l : List Char) :
    trimChars l =
      List.rdropWhile Char.isWhitespace (List.dropWhile Char.isWhitespace l) := by
  simp [trimChars, List.rdropWhile]

theorem dropWhile_of_rdropWhile {α : Type} (p : α → Bool) (l : List α)
    (h : List.dropWhile p l = l) :
    List.dropWhile p (List.rdropWhile p l) = List.rdropWhile p l := by
  rw [List.dropWhile_eq_self_iff] at h ⊢
  intro hl
  have hpre := List.rdropWhile_prefix p l
  have hl2 : 0 < l.length := lt_of_lt_of_le hl hpre.length_le
  have hget : (List.rdropWhile p l).get ⟨0, hl⟩ = l.get ⟨0, hl2⟩ := by
    rcases hpre with ⟨t, ht⟩
    have hsome : (List.rdropWhile p l ++ t)[0]? = (List.rdropWhile p l)[0]? :=
      List.getElem?_append_left hl
    rw [ht] at hsome
    simp only [List.get_eq_getElem, List.getElem?_eq_getElem hl2,
      List.getElem?_eq_getElem hl] at hsome ⊢
    exact (Option.some_inj.mp hsome).symm
  rw [hget]
  exact h hl2

theorem trimChars_idem (l : List Char) : trimChars (trimChars l) = trimChars l := by
  rw [trimChars_eq_rdrop, trimChars_eq_rdrop,
    dropWhile_of_rdropWhile _ _ (List.dropWhile_idempotent _ _),
    List.rdropWhile_idempotent]

theorem strTrim_idem (s : String) : strTrim (strTrim s) = strTrim s :=
  congrArg String.mk (trimChars_idem s.data)

theorem normalize_key_strTrim (s : String) :
    normalize_key (strTrim s) = normalize_key s := by
  unfold normalize_key
  rw [strTrim_idem]

theorem nonBlank_eq_some {s t : String} (h : nonBlank s = some t) :
    t = strTrim s ∧ strTrim s ≠ "" := by
  unfold nonBlank at h
  split at h
  · exact absurd h (by simp)
  · exact ⟨(Option.some.injEq _ _ ▸ h).symm, by assumption⟩

theorem nonBlank_of_ne {s : String} (h : strTrim s ≠ "") :
    nonBlank s = some (strTrim s) := by
  unfold nonBlank
  simp [h]

/-! ## Helper lemmas: association-list lookup and the index builder -/

theorem lookup_cons_eq {β : Type} (a k : String) (b : β) (l : List (String × β)) :
    List.lookup a ((k, b) :: l) = if a = k then some b else List.lookup a l := by
  rw [List.lookup_cons]
  by_cases h : a = k
  · subst h
    simp
  · simp [h, beq_false_of_ne h]

theorem buildIndexes_nil (idx : Nat) (nAcc : List (String × Nat))
    (lAcc : List (String × List Nat)) :
    buildIndexes [] idx nAcc lAcc = .ok (nAcc, lAcc) :=
  rfl

theorem buildIndexes_cons_dup {v : Validator} {rest : List Validator} {idx : Nat}
    {nAcc : List (String × Nat)} {lAcc : List (String × List Nat)} {x : Nat}
    (hl : List.lookup (normalize_key v.name) nAcc = some x) :
    buildIndexes (v :: rest) idx nAcc lAcc = .error (.DuplicateName v.name) := by
  rw [buildIndexes, hl]

theorem buildIndexes_cons_new {v : Validator} {rest : List Validator} {idx : Nat}
    {nAcc : List (String × Nat)} {lAcc : List (String × List Nat)}
    (hl : List.lookup (normalize_key v.name) nAcc = none) :
    buildIndexes (v :: rest) idx nAcc lAcc =
      buildIndexes rest (idx + 1) ((normalize_key v.name, idx) :: nAcc)
        (locInsert (normalize_key v.location) idx lAcc) := by
  rw [buildIndexes, hl]

/-- On success, the name index keeps every accumulator binding, binds
every record's normalized name to its absolute position, and contains
nothing else. -/
theorem buildIndexes_ok_name (vs : List Validator) :
    ∀ (idx0 : Nat) (nAcc : List (String × Nat)) (lAcc : List (String × List Nat))
      (nidx : List (String × Nat)) (lidx : List (String × List Nat)),
      buildIndexes vs idx0 nAcc lAcc = .ok (nidx, lidx) →
      ((∀ k v0, List.lookup k nAcc = some v0 → List.lookup k nidx = some v0) ∧
       (∀ j a, vs[j]? = some a → List.lookup (normalize_key a.name) nidx = some (idx0 + j)) ∧
       (∀ k i, List.lookup k nidx = some i →
          List.lookup k nAcc = some i ∨
          ∃ j a, vs[j]? = some a ∧ i = idx0 + j ∧ normalize_key a.name = k)) := by
  induction vs with
  | nil =>
    intro idx0 nAcc lAcc nidx lidx h
    rw [buildIndexes_nil] at h
    cases h
    exact ⟨fun k v0 hk => hk, fun j a ha => by simp at ha, fun k i hk => Or.inl hk⟩
  | cons v rest ih =>
    intro idx0 nAcc lAcc nidx lidx h
    cases hl : List.lookup (normalize_key v.name) nAcc with
    | some x =>
      rw [buildIndexes_cons_dup hl] at h
      cases h
    | none =>
      rw [buildIndexes_cons_new hl] at h
      obtain ⟨keep, compl, sound⟩ := ih (idx0 + 1) _ _ nidx lidx h
      refine ⟨?_, ?_, ?_⟩
      · intro k v0 hk
        apply keep
        rw [lookup_cons_eq]
        by_cases heq : k = normalize_key v.name
        · rw [heq] at hk
          rw [hl] at hk
          cases hk
        · rw [if_neg heq]
          exact hk
      · intro j a ha
        cases j with
        | zero =>
          have hv : a = v := by
            have h0 : (v :: rest)[0]? = some v := by simp
            rw [h0] at ha
            exact (Option.some_inj.mp ha).symm
          rw [hv]
          have hhead : List.lookup (normalize_key v.name)
              ((normalize_key v.name, idx0) :: nAcc) = some idx0 := by
            rw [lookup_cons_eq]
            simp
          simpa using keep _ _ hhead
        | succ j2 =>
          have hrest := compl j2 a (by simpa using ha)
          have harith : idx0 + 1 + j2 = idx0 + (j2 + 1) := by omega
          rw [harith] at hrest
          exact hrest
      · intro k i hk
        rcases sound k i hk with hacc | ⟨j, a, hja, hi, hn⟩
        · rw [lookup_cons_eq] at hacc
          by_cases heq : k = normalize_key v.name
          · rw [if_pos heq] at hacc
            have hi : i = idx0 := (Option.some_inj.mp hacc).symm
            exact Or.inr ⟨0, v, by simp, by omega, heq.symm⟩
          · rw [if_neg heq] at hacc
            exact Or.inl hacc
        · exact Or.inr ⟨j + 1, a, by simpa using hja, by omega, hn⟩

/-- When the index builder fails, the failure is a `DuplicateName`
carrying the display name of a record whose normalized name collides
with the accumulator or with an earlier record. -/
theorem buildIndexes_error (vs : List Validator) :
    ∀ (idx0 : Nat) (nAcc : List (String × Nat)) (lAcc : List (String × List Nat))
      (e : RegistryError),
      buildIndexes vs idx0 nAcc lAcc = .error e →
      ∃ (m : String) (j : Nat) (b : Validator),
        e = .DuplicateName m ∧ vs[j]? = some b ∧ m = b.name ∧
        ((List.lookup (normalize_key m) nAcc).isSome = true ∨
         ∃ (i : Nat) (a : Validator),
           i < j ∧ vs[i]? = some a ∧ normalize_key a.name = normalize_key m) := by
  induction vs with
  | nil =>
    intro idx0 nAcc lAcc e h
    rw [buildIndexes_nil] at h
    cases h
  | cons v rest ih =>
    intro idx0 nAcc lAcc e h
    cases hl : List.lookup (normalize_key v.name) nAcc with
    | some x =>
      rw [buildIndexes_cons_dup hl] at h
      cases h
      exact ⟨v.name, 0, v, rfl, by simp, rfl, Or.inl (by rw [hl]; rfl)⟩
    | none =>
      rw [buildIndexes_cons_new hl] at h
      obtain ⟨m, j, b, he, hb, hm, hdisj⟩ := ih (idx0 + 1) _ _ e h
      refine ⟨m, j + 1, b, he, by simpa using hb, hm, ?_⟩
      rcases hdisj with hsome | ⟨i, a, hij, hia, hna⟩
      · rw [lookup_cons_eq] at hsome
        by_cases heq : normalize_key m = normalize_key v.name
        · exact Or.inr ⟨0, v, by omega, by simp, heq.symm⟩
        · rw [if_neg heq] at hsome
          exact Or.inl hsome
      · exact Or.inr ⟨i + 1, a, by omega, by simpa using hia, hna⟩

theorem lookup_locInsert_self (key : String) (idx : Nat) (l : List (String × List Nat)) :
    List.lookup key (locInsert key idx l) =
      some (((List.lookup key l).getD []) ++ [idx]) := by
  induction l with
  | nil =>
    simp [locInsert, lookup_cons_eq]
  | cons hd rest ih =>
    obtain ⟨k1, is1⟩ := hd
    by_cases h1 : k1 = key
    · subst h1
      simp [locInsert, lookup_cons_eq]
    · have h2 : key ≠ k1 := fun hc => h1 hc.symm
      simp [locInsert, h1, h2, lookup_cons_eq, ih]

theorem lookup_locInsert_other {k key : String} (idx : Nat)
    (l : List (String × List Nat)) (h : k ≠ key) :
    List.lookup k (locInsert key idx l) = List.lookup k l := by
  induction l with
  | nil =>
    simp [locInsert, lookup_cons_eq, h]
  | cons hd rest ih =>
    obtain ⟨k1, is1⟩ := hd
    by_cases h1 : k1 = key
    · subst h1
      simp [locInsert, lookup_cons_eq, h]
    · by_cases h2 : k = k1 <;> simp [locInsert, h1, h2, lookup_cons_eq, ih]

/-- On success, the location index is sound (every stored position
comes from the accumulator or from a record whose normalized location
matches the key), persistent (accumulator entries survive), and
complete (every record's position is grouped under its normalized
location). -/
theorem buildIndexes_ok_loc (vs : List Validator) :
    ∀ (idx0 : Nat) (nAcc : List (String × Nat)) (lAcc : List (String × List Nat))
      (nidx : List (String × Nat)) (lidx : List (String × List Nat)),
      buildIndexes vs idx0 nAcc lAcc = .ok (nidx, lidx) →
      ((∀ k is, List.lookup k lidx = some is → ∀ i ∈ is,
          (∃ is0, List.lookup k lAcc = some is0 ∧ i ∈ is0) ∨
          ∃ j a, vs[j]? = some a ∧ i = idx0 + j ∧ normalize_key a.location = k) ∧
       (∀ k is, List.lookup k lAcc = some is →
          ∃ is2, List.lookup k lidx = some is2 ∧ ∀ i ∈ is, i ∈ is2) ∧
       (∀ j a, vs[j]? = some a →
          ∃ is, List.lookup (normalize_key a.location) lidx = some is ∧ (idx0 + j) ∈ is)) := by
  induction vs with
  | nil =>
    intro idx0 nAcc lAcc nidx lidx h
    rw [buildIndexes_nil] at h
    cases h
    refine ⟨fun k is his i hi => Or.inl ⟨is, his, hi⟩,
      fun k is his => ⟨is, his, fun i hi => hi⟩,
      fun j a ha => by simp at ha⟩
  | cons v rest ih =>
    intro idx0 nAcc lAcc nidx lidx h
    cases hl : List.lookup (normalize_key v.name) nAcc with
    | some x =>
      rw [buildIndexes_cons_dup hl] at h
      cases h
    | none =>
      rw [buildIndexes_cons_new hl] at h
      obtain ⟨sound, keep, compl⟩ := ih (idx0 + 1) _ _ nidx lidx h
      refine ⟨?_, ?_, ?_⟩
      · intro k is his i hi
        rcases sound k is his i hi with ⟨is0, his0, hmem⟩ | ⟨j, a, hja, hieq, hn⟩
        · by_cases heq : k = normalize_key v.location
          · subst heq
            rw [lookup_locInsert_self] at his0
            obtain rfl := Option.some_inj.mp his0
            rcases List.mem_append.mp hmem with hin | hin
            · cases hold : List.lookup (normalize_key v.location) lAcc with
              | none =>
                rw [hold] at hin
                simp at hin
              | some is1 =>
                rw [hold] at hin
                simp only [Option.getD_some] at hin
                exact Or.inl ⟨is1, rfl, hin⟩
            · have hi0 : i = idx0 := by simpa using hin
              exact Or.inr ⟨0, v, by simp, by omega, rfl⟩
          · rw [lookup_locInsert_other idx0 lAcc heq] at his0
            exact Or.inl ⟨is0, his0, hmem⟩
        · exact Or.inr ⟨j + 1, a, by simpa using hja, by omega, hn⟩
      · intro k is his
        by_cases heq : k = normalize_key v.location
        · have hstep : List.lookup k (locInsert (normalize_key v.location) idx0 lAcc) =
              some (is ++ [idx0]) := by
            rw [heq, lookup_locInsert_self, ← heq, his]
            rfl
          obtain ⟨is2, his2, hsub⟩ := keep k _ hstep
          exact ⟨is2, his2, fun i hi => hsub i (List.mem_append.mpr (Or.inl hi))⟩
        · have hstep : List.lookup k (locInsert (normalize_key v.location) idx0 lAcc) =
              some is := by
            rw [lookup_locInsert_other idx0 lAcc heq, his]
          exact keep k is hstep
      · intro j a ha
        cases j with
        | zero =>
          have hv : a = v := by
            have h0 : (v :: rest)[0]? = some v := by simp
            rw [h0] at ha
            exact (Option.some_inj.mp ha).symm
          rw [hv]
          have hstep := lookup_locInsert_self (normalize_key v.location) idx0 lAcc
          obtain ⟨is2, his2, hsub⟩ := keep _ _ hstep
          refine ⟨is2, his2, ?_⟩
          have hmem0 : idx0 ∈ ((List.lookup (normalize_key v.location) lAcc).getD []) ++ [idx0] := by
            simp
          simpa using hsub idx0 hmem0
        | succ j2 =>
          obtain ⟨is, his, hmem⟩ := compl j2 a (by simpa using ha)
          refine ⟨is, his, ?_⟩
          have harith : idx0 + 1 + j2 = idx0 + (j2 + 1) := by omega
          rw [harith] at hmem
          exact hmem

/-! ## Registry-level corollaries -/

theorem new_ok_elim {vs : List Validator} {r : ValidatorRegistry}
    (h : ValidatorRegistry.new vs = .ok r) :
    r.validators = vs ∧ vs ≠ [] ∧
      buildIndexes vs 0 [] [] = .ok (r.index_by_name, r.index_by_location) := by
  unfold ValidatorRegistry.new at h
  by_cases hv : vs = []
  · rw [if_pos hv] at h
    cases h
  · rw [if_neg hv] at h
    cases hb : buildIndexes vs 0 [] [] with
    | error e =>
      rw [hb] at h
      cases h
    | ok p =>
      obtain ⟨n, l⟩ := p
      rw [hb] at h
      cases h
      exact ⟨rfl, hv, rfl⟩

theorem new_get_by_name_mem {vs : List Validator} {r : ValidatorRegistry}
    (h : ValidatorRegistry.new vs = .ok r) {v : Validator} {n : String}
    (hv : v ∈ vs) (hn : normalize_key v.name = normalize_key n) :
    r.get_by_name n = some v := by
  obtain ⟨hval, _, hb⟩ := new_ok_elim h
  obtain ⟨_, compl, _⟩ := buildIndexes_ok_name vs 0 [] [] _ _ hb
  obtain ⟨j, hj⟩ := List.mem_iff_getElem?.mp hv
  have hlook := compl j v hj
  unfold ValidatorRegistry.get_by_name
  rw [← hn, hlook]
  show r.validators.get? (0 + j) = some v
  rw [hval, Nat.zero_add, List.get?_eq_getElem?]
  exact hj

theorem new_get_by_name_none {vs : List Validator} {r : ValidatorRegistry}
    (h : ValidatorRegistry.new vs = .ok r) {n : String}
    (hnone : ∀ v ∈ vs, normalize_key v.name ≠ normalize_key n) :
    r.get_by_name n = none := by
  obtain ⟨hval, _, hb⟩ := new_ok_elim h
  obtain ⟨_, _, sound⟩ := buildIndexes_ok_name vs 0 [] [] _ _ hb
  unfold ValidatorRegistry.get_by_name
  cases hlook : List.lookup (normalize_key n) r.index_by_name with
  | none => rfl
  | some i =>
    rcases sound _ i hlook with hacc | ⟨j, a, hja, _, hkey⟩
    · simp at hacc
    · exact absurd hkey (hnone a (List.getElem?_mem hja))

/-! ## C3: duplicate normalized names -/

/-- C3: if two records of the input list have equal normalized names,
`ValidatorRegistry::new` fails with a `DuplicateName` error whose
carried display name belongs to a record colliding with an earlier one;
conversely, a successfully constructed registry has pairwise distinct
normalized names. -/
theorem registry_duplicate_name_detection (vs : List Validator) :
    (∀ (i j : Nat) (a b : Validator), i < j → vs[i]? = some a → vs[j]? = some b →
       normalize_key a.name = normalize_key b.name →
       ∃ (m : String) (j2 : Nat) (b2 : Validator),
         ValidatorRegistry.new vs = .error (.DuplicateName m) ∧
         vs[j2]? = some b2 ∧ m = b2.name ∧
         ∃ (i2 : Nat) (a2 : Validator), i2 < j2 ∧ vs[i2]? = some a2 ∧
           normalize_key a2.name = normalize_key m) ∧
    (∀ r, ValidatorRegistry.new vs = .ok r →
       ∀ (i j : Nat) (a b : Validator), vs[i]? = some a → vs[j]? = some b → i ≠ j →
         normalize_key a.name ≠ normalize_key b.name) := by
  constructor
  · intro i j a b hij hia hjb hkey
    have hne : vs ≠ [] := by
      intro hnil
      rw [hnil] at hjb
      simp at hjb
    cases hb : buildIndexes vs 0 [] [] with
    | ok p =>
      obtain ⟨nn, ll⟩ := p
      obtain ⟨_, compl, _⟩ := buildIndexes_ok_name vs 0 [] [] nn ll hb
      have h1 := compl i a hia
      have h2 := compl j b hjb
      rw [hkey] at h1
      rw [h1] at h2
      exact absurd (Option.some_inj.mp h2) (by omega)
    | error e =>
      obtain ⟨m, j2, b2, he, hb2, hm, hdisj⟩ := buildIndexes_error vs 0 [] [] e hb
      subst he
      refine ⟨m, j2, b2, ?_, hb2, hm, ?_⟩
      · unfold ValidatorRegistry.new
        rw [if_neg hne, hb]
      · rcases hdisj with habs | hcol
        · simp at habs
        · exact hcol
  · intro r hr i j a b hia hjb hij hkey
    obtain ⟨_, _, hb⟩ := new_ok_elim hr
    obtain ⟨_, compl, _⟩ := buildIndexes_ok_name vs 0 [] [] _ _ hb
    have h1 := compl i a hia
    have h2 := compl j b hjb
    rw [hkey] at h1
    rw [h1] at h2
    exact absurd (Option.some_inj.mp h2) (by omega)

/-! Concrete sample data shared by the witnesses. -/

def vFoo : Validator :=
  Validator.mk "Foo" "lab" (Url.mk "http" (some "a") (some 8899))

def vFoo2 : Validator :=
  Validator.mk " foo " "lab" (Url.mk "http" (some "b") (some 8899))

def vBar : Validator :=
  Validator.mk "bar" "Lab" (Url.mk "http" (some "c") (some 8899))

def sampleRegistry : ValidatorRegistry :=
  ValidatorRegistry.mk [vFoo, vBar] [("bar", 1), ("foo", 0)] [("lab", [0, 1])]

/-- Witness for C3 at the concrete input `[vFoo, vFoo2]`, whose two
names both normalize to "foo". -/
theorem registry_duplicate_name_detection_witness :
    ∃ (m : String) (j2 : Nat) (b2 : Validator),
      ValidatorRegistry.new [vFoo, vFoo2] = .error (.DuplicateName m) ∧
      [vFoo, vFoo2][j2]? = some b2 ∧ m = b2.name ∧
      ∃ (i2 : Nat) (a2 : Validator), i2 < j2 ∧ [vFoo, vFoo2][i2]? = some a2 ∧
        normalize_key a2.name = normalize_key m :=
  (registry_duplicate_name_detection [vFoo, vFoo2]).1 0 1 vFoo vFoo2
    (by decide) (by decide) (by decide) (by decide)

/-! ## Selection lemmas -/

theorem chooseList_mem {α : Type} {l : List α} {k : Nat} {a : α}
    (h : chooseList l k = some a) : a ∈ l := by
  unfold chooseList at h
  split at h
  · cases h
  · rw [List.get?_eq_getElem?] at h
    exact List.getElem?_mem h

theorem chooseList_of_ne_nil {α : Type} {l : List α} (k : Nat) (h : l ≠ []) :
    ∃ a, chooseList l k = some a ∧ a ∈ l := by
  unfold chooseList
  rw [if_neg (by simpa using h)]
  have hpos : 0 < l.length := List.length_pos.mpr h
  have hlt : k % l.length < l.length := Nat.mod_lt _ hpos
  exact ⟨l.get ⟨k % l.length, hlt⟩, List.get?_eq_get hlt, List.get_mem _ _ hlt⟩

theorem chooseList_at_index {α : Type} {l : List α} {pos : Nat} {a : α}
    (h : l[pos]? = some a) : chooseList l pos = some a := by
  have hlt : pos < l.length := (List.getElem?_eq_some.mp h).1
  have hne : ¬ l.isEmpty = true := by
    intro hE
    rw [List.isEmpty_iff] at hE
    rw [hE] at hlt
    simp at hlt
  unfold chooseList
  rw [if_neg hne, List.get?_eq_getElem?, Nat.mod_eq_of_lt hlt]
  exact h

theorem select_name_eq (r : ValidatorRegistry) {name t : String} (loc : Option String)
    (k : Nat) (ht : nonBlank name = some t) :
    r.select (some name) loc k =
      match r.get_by_name t with
      | some v => .ok v
      | none => .error (.UnknownValidator t) := by
  unfold ValidatorRegistry.select
  simp only [show (some name).bind nonBlank = nonBlank name from rfl, ht]

theorem select_loc_eq (r : ValidatorRegistry) {na : Option String} {loc t : String}
    (k : Nat) (hna : na.bind nonBlank = none) (ht : nonBlank loc = some t) :
    r.select na (some loc) k =
      match r.random_in_location t k with
      | some v => .ok v
      | none => .error (.UnknownLocation t) := by
  unfold ValidatorRegistry.select
  simp only [hna, show (some loc).bind nonBlank = nonBlank loc from rfl, ht]

/-! ## C4: selection by explicit name -/

/-- C4: with a non-blank name hint, `select` is deterministic (the
location hint and the random draw are ignored), returns exactly the
record whose normalized name matches the normalized argument, and
fails with `UnknownValidator` carrying the trimmed name when no record
matches. -/
theorem select_by_name (vs : List Validator) (r : ValidatorRegistry) (name : String)
    (loc1 loc2 : Option String) (k1 k2 : Nat)
    (hr : ValidatorRegistry.new vs = .ok r)
    (hnb : strTrim name ≠ "") :
    ((∀ v ∈ vs, normalize_key v.name ≠ normalize_key name) →
       r.select (some name) loc1 k1 = .error (.UnknownValidator (strTrim name))) ∧
    (∀ v ∈ vs, normalize_key v.name = normalize_key name →
       r.select (some name) loc1 k1 = .ok v) ∧
    r.select (some name) loc1 k1 = r.select (some name) loc2 k2 := by
  have ht : nonBlank name = some (strTrim name) := nonBlank_of_ne hnb
  refine ⟨?_, ?_, ?_⟩
  · intro hnone
    rw [select_name_eq r loc1 k1 ht]
    have : r.get_by_name (strTrim name) = none := by
      apply new_get_by_name_none hr
      intro v hv
      rw [normalize_key_strTrim]
      exact hnone v hv
    rw [this]
  · intro v hv hn
    rw [select_name_eq r loc1 k1 ht]
    have : r.get_by_name (strTrim name) = some v := by
      apply new_get_by_name_mem hr hv
      rw [normalize_key_strTrim]
      exact hn
    rw [this]
  · rw [select_name_eq r loc1 k1 ht, select_name_eq r loc2 k2 ht]

/-- Witness for C4 at the name `" FOO "` against the two-node sample
registry. -/
theorem select_by_name_witness :
    ((∀ v ∈ [vFoo, vBar], normalize_key v.name ≠ normalize_key " FOO ") →
       sampleRegistry.select (some " FOO ") none 0 =
         .error (.UnknownValidator (strTrim " FOO "))) ∧
    (∀ v ∈ [vFoo, vBar], normalize_key v.name = normalize_key " FOO " →
       sampleRegistry.select (some " FOO ") none 0 = .ok v) ∧
    sampleRegistry.select (some " FOO ") none 0 =
      sampleRegistry.select (some " FOO ") (some "mars") 7 :=
  select_by_name [vFoo, vBar] sampleRegistry " FOO " none (some "mars") 0 7
    (by decide) (by decide)

/-! ## C5: selection by location -/

/-- C5: with no usable name hint and a non-blank location hint,
`select` only ever returns records whose normalized location equals the
normalized argument, every record of the matching group is reachable by
some random draw, and an unmatched location fails with
`UnknownLocation` carrying the trimmed location. -/
theorem select_by_location (vs : List Validator) (r : ValidatorRegistry)
    (na : Option String) (loc : String) (k : Nat)
    (hr : ValidatorRegistry.new vs = .ok r)
    (hna : na.bind nonBlank = none)
    (hl : strTrim loc ≠ "") :
    (∀ v, r.select na (some loc) k = .ok v →
       v ∈ vs ∧ normalize_key v.location = normalize_key loc) ∧
    ((∀ v ∈ vs, normalize_key v.location ≠ normalize_key loc) →
       r.select na (some loc) k = .error (.UnknownLocation (strTrim loc))) ∧
    (∀ v ∈ vs, normalize_key v.location = normalize_key loc →
       ∃ k2, r.select na (some loc) k2 = .ok v) := by
  have ht : nonBlank loc = some (strTrim loc) := nonBlank_of_ne hl
  obtain ⟨hval, _, hb⟩ := new_ok_elim hr
  obtain ⟨sound, _, compl⟩ := buildIndexes_ok_loc vs 0 [] [] _ _ hb
  refine ⟨?_, ?_, ?_⟩
  · intro v hsel
    rw [select_loc_eq r k hna ht] at hsel
    cases hril : r.random_in_location (strTrim loc) k with
    | none =>
      rw [hril] at hsel
      cases hsel
    | some w =>
      rw [hril] at hsel
      cases hsel
      unfold ValidatorRegistry.random_in_location at hril
      cases hlook : List.lookup (normalize_key (strTrim loc)) r.index_by_location with
      | none =>
        rw [hlook] at hril
        cases hril
      | some is =>
        rw [hlook] at hril
        have hril2 : (chooseList is k).bind (fun idx => r.validators.get? idx) = some v :=
          hril
        cases hch : chooseList is k with
        | none =>
          rw [hch] at hril2
          cases hril2
        | some idx =>
          rw [hch] at hril2
          have hidxmem := chooseList_mem hch
          rcases sound _ is hlook idx hidxmem with ⟨is0, his0, _⟩ | ⟨j, a, hja, hieq, hn⟩
          · simp at his0
          · have hget : r.validators.get? idx = some v := hril2
            rw [hval, List.get?_eq_getElem?] at hget
            rw [hieq] at hget
            rw [Nat.zero_add] at hget
            rw [hja] at hget
            obtain rfl := Option.some_inj.mp hget
            refine ⟨List.getElem?_mem hja, ?_⟩
            rw [← normalize_key_strTrim loc]
            exact hn
  · intro hnone
    rw [select_loc_eq r k hna ht]
    cases hlook : List.lookup (normalize_key (strTrim loc)) r.index_by_location with
    | none =>
      unfold ValidatorRegistry.random_in_location
      rw [hlook]
      rfl
    | some is =>
      cases is with
      | nil =>
        unfold ValidatorRegistry.random_in_location
        rw [hlook]
        rfl
      | cons i0 irest =>
        exfalso
        rcases sound _ _ hlook i0 (List.mem_cons_self i0 irest)
          with ⟨is0, his0, _⟩ | ⟨j, a, hja, _, hn⟩
        · simp at his0
        · apply hnone a (List.getElem?_mem hja)
          rw [← normalize_key_strTrim loc]
          exact hn
  · intro v hv hn
    obtain ⟨j, hj⟩ := List.mem_iff_getElem?.mp hv
    obtain ⟨is, his, hmem⟩ := compl j v hj
    obtain ⟨pos, hpos⟩ := List.mem_iff_getElem?.mp hmem
    refine ⟨pos, ?_⟩
    rw [select_loc_eq r pos hna ht]
    have hril : r.random_in_location (strTrim loc) pos = some v := by
      unfold ValidatorRegistry.random_in_location
      have hkey : normalize_key v.location = normalize_key (strTrim loc) := by
        rw [normalize_key_strTrim]
        exact hn
      rw [← hkey, his]
      show (chooseList is pos).bind (fun idx => r.validators.get? idx) = some v
      rw [chooseList_at_index hpos]
      show r.validators.get? (0 + j) = some v
      rw [hval, Nat.zero_add, List.get?_eq_getElem?]
      exact hj
    rw [hril]

/-- Witness for C5 at the location `" LAB "` against the two-node
sample registry (both nodes have locations normalizing to "lab"). -/
theorem select_by_location_witness :
    (∀ v, sampleRegistry.select none (some " LAB ") 1 = .ok v →
       v ∈ [vFoo, vBar] ∧ normalize_key v.location = normalize_key " LAB ") ∧
    ((∀ v ∈ [vFoo, vBar], normalize_key v.location ≠ normalize_key " LAB ") →
       sampleRegistry.select none (some " LAB ") 1 =
         .error (.UnknownLocation (strTrim " LAB "))) ∧
    (∀ v ∈ [vFoo, vBar], normalize_key v.location = normalize_key " LAB " →
       ∃ k2, sampleRegistry.select none (some " LAB ") k2 = .ok v) :=
  select_by_location [vFoo, vBar] sampleRegistry none " LAB " 1
    (by decide) (by decide) (by decide)

/-! ## C6: empty registry is unconstructible; hint-free selection
always succeeds -/

/-- C6: construction with an empty list fails with `Empty`, every
constructed registry is non-empty, and `select` with no usable hints
always returns some member of the registry (the `Empty` selection
branch is unreachable). -/
theorem select_no_hints (vs : List Validator) (r : ValidatorRegistry)
    (na la : Option String) (k : Nat)
    (hr : ValidatorRegistry.new vs = .ok r)
    (hna : na.bind nonBlank = none)
    (hla : la.bind nonBlank = none) :
    ValidatorRegistry.new ([] : List Validator) = .error .Empty ∧
    vs ≠ [] ∧
    ∃ v, r.select na la k = .ok v ∧ v ∈ r.validators := by
  obtain ⟨hval, hne, _⟩ := new_ok_elim hr
  refine ⟨by decide, hne, ?_⟩
  have hne2 : r.validators ≠ [] := by
    rw [hval]
    exact hne
  obtain ⟨v, hch, hmem⟩ := chooseList_of_ne_nil k hne2
  refine ⟨v, ?_, hmem⟩
  unfold ValidatorRegistry.select
  simp only [hna, hla]
  unfold ValidatorRegistry.random
  rw [hch]

/-- Witness for C6: hint-free selection (blank location hint) on the
two-node sample registry succeeds. -/
theorem select_no_hints_witness :
    ValidatorRegistry.new ([] : List Validator) = .error .Empty ∧
    [vFoo, vBar] ≠ [] ∧
    ∃ v, sampleRegistry.select none (some "   ") 7 = .ok v ∧
      v ∈ sampleRegistry.validators :=
  select_no_hints [vFoo, vBar] sampleRegistry none (some "   ") 7
    (by decide) (by decide) (by decide)

/-! ## Endpoint-builder lemmas -/

theorem postValidate_ok {row : Nat} {url u2 : Url} (h : postValidate row url = .ok u2) :
    (u2.scheme = "http" ∨ u2.scheme = "https") ∧
    u2.host ≠ none ∧
    (∃ p, u2.port = some p) ∧
    (url.port = none → u2.port = some default_rpc_port) ∧
    (∀ q, url.port = some q → u2 = url) := by
  unfold postValidate at h
  by_cases h1 : url.scheme ≠ "http" ∧ url.scheme ≠ "https"
  · rw [if_pos h1] at h
    cases h
  · rw [if_neg h1] at h
    have hs : url.scheme = "http" ∨ url.scheme = "https" := by
      rcases not_and_or.mp h1 with hx | hx
      · exact Or.inl (not_not.mp hx)
      · exact Or.inr (not_not.mp hx)
    by_cases h2 : url.host = none
    · rw [if_pos h2] at h
      cases h
    · rw [if_neg h2] at h
      cases hp : url.port with
      | some q =>
        rw [hp] at h
        cases h
        refine ⟨hs, h2, ⟨q, hp⟩, ?_, ?_⟩
        · intro hc
          cases hc
        · intro q2 _
          rfl
      | none =>
        rw [hp] at h
        have hd : ¬ defaultPortOf url.scheme = some default_rpc_port := by
          rcases hs with hx | hx <;> simp [defaultPortOf, hx, default_rpc_port]
        unfold Url.setPort at h
        rw [if_neg h2, if_neg hd] at h
        cases h
        refine ⟨hs, h2, ⟨default_rpc_port, rfl⟩, fun _ => rfl, ?_⟩
        intro q2 hq2
        cases hq2

theorem try_from_record_ok_parts {parse : String → Option Url}
    {record : ValidatorCsvRecord} {row ordinal : Nat} {v : Validator}
    (h : Validator.try_from_record parse record row ordinal = .ok v) :
    ∃ url u2,
      resolveUrl parse record row (recProtocol record) = .ok url ∧
      postValidate row url = .ok u2 ∧
      v = Validator.mk
        ((record.name.bind nonBlank).getD
          (generate_default_name (recLocation record) ordinal))
        (recLocation record) u2 := by
  unfold Validator.try_from_record at h
  split at h
  · cases h
  · split at h
    next e heq =>
      cases h
    next url heq =>
      split at h
      next e2 heq2 =>
        cases h
      next u2 heq2 =>
        cases h
        exact ⟨url, u2, heq, heq2, rfl⟩

/-- If the row itself carries no port information, the resolved URL has
no explicit port or already carries the default port. -/
theorem resolveUrl_ok_no_port {parse : String → Option Url}
    {record : ValidatorCsvRecord} {row : Nat} {protocol : String} {url : Url}
    (hres : resolveUrl parse record row protocol = .ok url)
    (hport : record.endpoint_port = none)
    (hrpc : ∀ e u, record.rpc_endpoint.bind nonBlank = some e → parse e = some u →
       u.port = none)
    (hhost : ∀ hs u, record.rpc_endpoint.bind nonBlank = none →
       record.endpoint_host.bind nonBlank = some hs →
       parse (protocol ++ "://" ++ prepare_host_for_url hs) = some u → u.port = none) :
    url.port = none ∨ url.port = some default_rpc_port := by
  unfold resolveUrl at hres
  split at hres
  next e hre =>
    split at hres
    next u hpe =>
      cases hres
      exact Or.inl (hrpc e url hre hpe)
    next hpe =>
      cases hres
  next hre =>
    split at hres
    next hs hrh =>
      split at hres
      next hpe =>
        cases hres
      next parsed hpe =>
        split at hres
        next q hq =>
          have hpn : parsed.port = none := hhost hs parsed hre hrh hpe
          rw [hpn] at hq
          cases hq
        next hq =>
          split at hres
          next u hsp =>
            cases hres
            rw [hport] at hsp
            unfold Url.setPort at hsp
            split at hsp
            · cases hsp
            · split at hsp
              · cases hsp
                exact Or.inl rfl
              · cases hsp
                exact Or.inr rfl
          next hsp =>
            cases hres
    next hrh =>
      cases hres

/-! ## C2: accepted endpoints always have scheme, host and port -/

/-- The condition "the input row supplied no port": the `port` column is
empty, and whichever URL string the builder parses comes back without
an explicit (non-default) port. -/
def inputSuppliedNoPort (parse : String → Option Url) (record : ValidatorCsvRecord) : Prop :=
  record.endpoint_port = none ∧
  (∀ e u, record.rpc_endpoint.bind nonBlank = some e → parse e = some u →
     u.port = none) ∧
  (∀ hs u, record.rpc_endpoint.bind nonBlank = none →
     record.endpoint_host.bind nonBlank = some hs →
     parse (recProtocol record ++ "://" ++ prepare_host_for_url hs) = some u →
     u.port = none)

/-- C2: every accepted configuration row yields an endpoint whose
scheme is exactly http or https, which has a host, and which has an
explicit port; the port is the default 8899 whenever the input supplied
no port.  This holds for both the explicit-`rpc_url` branch and the
host-column branch. -/
theorem endpoint_post_validation (parse : String → Option Url)
    (record : ValidatorCsvRecord) (row ordinal : Nat) (v : Validator)
    (h : Validator.try_from_record parse record row ordinal = .ok v) :
    (v.rpc_url.scheme = "http" ∨ v.rpc_url.scheme = "https") ∧
    v.rpc_url.host ≠ none ∧
    (∃ p, v.rpc_url.port = some p) ∧
    (inputSuppliedNoPort parse record → v.rpc_url.port = some default_rpc_port) := by
  obtain ⟨url, u2, hres, hpost, hv⟩ := try_from_record_ok_parts h
  obtain ⟨hs, hh, hp, hdef, hkeep⟩ := postValidate_ok hpost
  subst hv
  refine ⟨hs, hh, hp, ?_⟩
  rintro ⟨hport, hrpc, hhost⟩
  rcases resolveUrl_ok_no_port hres hport hrpc hhost with hnone | hdefp
  · exact hdef hnone
  · have := hkeep default_rpc_port hdefp
    subst this
    exact hdefp

/-- Concrete parse model used by several witnesses: it knows three
fixed URL strings, each parsing to an http URL with a host and no
explicit port. -/
def parseSample : String → Option Url := fun s =>
  if s = "http://a.example" then some (Url.mk "http" (some "a.example") none)
  else if s = "http://b.example" then some (Url.mk "http" (some "b.example") none)
  else if s = "http://f.example" then some (Url.mk "http" (some "f.example") none)
  else none

def recSampleA : ValidatorCsvRecord :=
  ValidatorCsvRecord.mk (some "node-a") (some " http://a.example ") none none none (some "lab")

def builtSampleA : Validator :=
  Validator.mk "node-a" "lab" (Url.mk "http" (some "a.example") (some 8899))

/-- Witness for C2: the concrete row `recSampleA` is accepted and its
endpoint satisfies the post-validation facts. -/
theorem endpoint_post_validation_witness :
    Validator.try_from_record parseSample recSampleA 2 1 = .ok builtSampleA ∧
    ((builtSampleA.rpc_url.scheme = "http" ∨ builtSampleA.rpc_url.scheme = "https") ∧
     builtSampleA.rpc_url.host ≠ none ∧
     (∃ p, builtSampleA.rpc_url.port = some p) ∧
     (inputSuppliedNoPort parseSample recSampleA →
        builtSampleA.rpc_url.port = some default_rpc_port)) :=
  ⟨by decide, endpoint_post_validation parseSample recSampleA 2 1 builtSampleA (by decide)⟩

/-! ## C10: an explicit rpc_url makes the port column irrelevant -/

/-- C10: when a row supplies a non-blank explicit `rpc_url`, the
`port` column is ignored entirely (the builder's result does not depend
on it), and if the parsed URL has no explicit non-default port the
default 8899 is applied regardless of the column's value. -/
theorem explicit_url_ignores_port_column (parse : String → Option Url)
    (record : ValidatorCsvRecord) (row ordinal : Nat) (e : String)
    (he : record.rpc_endpoint.bind nonBlank = some e) :
    (∀ p2, Validator.try_from_record parse
        { record with endpoint_port := p2 } row ordinal =
      Validator.try_from_record parse record row ordinal) ∧
    (∀ u v, parse e = some u → u.port = none →
       Validator.try_from_record parse record row ordinal = .ok v →
       v.rpc_url.port = some default_rpc_port) := by
  constructor
  · intro p2
    unfold Validator.try_from_record
    have hpro : recProtocol { record with endpoint_port := p2 } = recProtocol record := rfl
    rw [hpro]
    have hres : resolveUrl parse { record with endpoint_port := p2 } row
        (recProtocol record) = resolveUrl parse record row (recProtocol record) := by
      unfold resolveUrl
      rw [show ({ record with endpoint_port := p2 } :
        ValidatorCsvRecord).rpc_endpoint.bind nonBlank =
          record.rpc_endpoint.bind nonBlank from rfl, he]
    rw [hres]
    rfl
  · intro u v hpe hpn h
    obtain ⟨url, u2, hres, hpost, hv⟩ := try_from_record_ok_parts h
    unfold resolveUrl at hres
    rw [he] at hres
    have hres2 : (match parse e with
        | some u3 => (Except.ok u3 : Except RegistryError Url)
        | none => .error (.InvalidRecord row ("invalid url " ++ sq ++ e ++ sq))) =
        .ok url := hres
    rw [hpe] at hres2
    have hres3 : (Except.ok u : Except RegistryError Url) = .ok url := hres2
    cases hres3
    obtain ⟨_, _, _, hdef, _⟩ := postValidate_ok hpost
    subst hv
    exact hdef hpn

def recSamplePort : ValidatorCsvRecord :=
  ValidatorCsvRecord.mk (some "node-a") (some "http://a.example") none (some 1234) none
    (some "lab")

/-- Witness for C10: the concrete row `recSamplePort` carries
`port = 1234`, yet the builder applies the default port 8899 because an
explicit `rpc_url` without a port is present. -/
theorem explicit_url_ignores_port_column_witness :
    ((∀ p2, Validator.try_from_record parseSample
        { recSamplePort with endpoint_port := p2 } 2 1 =
      Validator.try_from_record parseSample recSamplePort 2 1) ∧
     (∀ u v, parseSample "http://a.example" = some u → u.port = none →
        Validator.try_from_record parseSample recSamplePort 2 1 = .ok v →
        v.rpc_url.port = some default_rpc_port)) ∧
    Validator.try_from_record parseSample recSamplePort 2 1 = .ok builtSampleA :=
  ⟨explicit_url_ignores_port_column parseSample recSamplePort 2 1 "http://a.example"
      (by decide),
    by decide⟩

/-! ## C9: auto-generated names -/

theorem try_from_record_ok_name_location {parse : String → Option Url}
    {record : ValidatorCsvRecord} {row ordinal : Nat} {v : Validator}
    (h : Validator.try_from_record parse record row ordinal = .ok v) :
    v.location = recLocation record ∧
    v.name = (record.name.bind nonBlank).getD
      (generate_default_name (recLocation record) ordinal) := by
  obtain ⟨url, u2, _, _, hv⟩ := try_from_record_ok_parts h
  subst hv
  exact ⟨rfl, rfl⟩

/-- The `from_reader` loop: each accepted record lands at its input
position, was built with row number `position + 2` and ordinal
`position + 1` (the 1-based count of accepted records including
itself). -/
theorem loadRecords_ok_get (records : List ValidatorCsvRecord) :
    ∀ (parse : String → Option Url) (rowIdx : Nat) (acc out : List Validator),
      loadRecords parse records rowIdx acc = .ok out →
      ((∀ (i : Nat) (a : Validator), acc[i]? = some a → out[i]? = some a) ∧
       (∀ (i : Nat) (rec1 : ValidatorCsvRecord), records[i]? = some rec1 →
         ∃ v, Validator.try_from_record parse rec1 (rowIdx + i + 2)
             (acc.length + i + 1) = .ok v ∧
           out[acc.length + i]? = some v)) := by
  induction records with
  | nil =>
    intro parse rowIdx acc out h
    rw [show loadRecords parse [] rowIdx acc = .ok acc from rfl] at h
    cases h
    refine ⟨?_, ?_⟩
    · intro i a ha
      exact ha
    · intro i rec1 hi
      simp at hi
  | cons rec1 rest ih =>
    intro parse rowIdx acc out h
    rw [loadRecords] at h
    cases htr : Validator.try_from_record parse rec1 (rowIdx + 2) (acc.length + 1) with
    | error e =>
      rw [htr] at h
      cases h
    | ok v =>
      rw [htr] at h
      obtain ⟨keep, third⟩ := ih parse (rowIdx + 1) (acc ++ [v]) out h
      constructor
      · intro i a ha
        have hlt : i < acc.length := (List.getElem?_eq_some.mp ha).1
        apply keep
        rw [List.getElem?_append_left hlt]
        exact ha
      · intro i rec2 hi
        cases i with
        | zero =>
          have hrec : rec2 = rec1 := by
            have h0 : (rec1 :: rest)[0]? = some rec1 := by simp
            rw [h0] at hi
            exact (Option.some_inj.mp hi).symm
          subst hrec
          refine ⟨v, by simpa using htr, ?_⟩
          have hcat : (acc ++ [v])[acc.length]? = some v := by
            simp
          have := keep _ _ hcat
          simpa using this
        | succ j =>
          obtain ⟨w, hw1, hw2⟩ := third j rec2 (by simpa using hi)
          refine ⟨w, ?_, ?_⟩
          · rw [show rowIdx + (j + 1) + 2 = rowIdx + 1 + j + 2 by omega,
              show acc.length + (j + 1) + 1 = (acc ++ [v]).length + j + 1 by simp; omega]
            exact hw1
          · rw [show acc.length + (j + 1) = (acc ++ [v]).length + j by simp; omega]
            exact hw2

/-- C9: an accepted row whose name column is blank gets the
auto-generated name: the sanitized location with the 1-based ordinal of
the record appended, or `validator-<ordinal>` when the sanitized
location is empty.  Includes the two concrete examples from the spec:
location "Frankfurt 1" as 3rd accepted row, and a blank location as 1st
accepted row. -/
theorem auto_generated_names (parse : String → Option Url)
    (records : List ValidatorCsvRecord) (i : Nat) (rec1 : ValidatorCsvRecord)
    (r : ValidatorRegistry)
    (hi : records[i]? = some rec1)
    (hblank : rec1.name.bind nonBlank = none)
    (hr : from_records parse records = .ok r) :
    (∃ v, r.validators[i]? = some v ∧
       v.location = recLocation rec1 ∧
       v.name = generate_default_name v.location (i + 1)) ∧
    generate_default_name "Frankfurt 1" 3 = "frankfurt-1-3" ∧
    generate_default_name "" 1 = "validator-1" := by
  refine ⟨?_, by decide, by decide⟩
  unfold from_records at hr
  cases hload : loadRecords parse records 0 [] with
  | error e =>
    rw [hload] at hr
    cases hr
  | ok vsout =>
    rw [hload] at hr
    obtain ⟨hval, _, _⟩ := new_ok_elim hr
    obtain ⟨_, third⟩ := loadRecords_ok_get records parse 0 [] vsout hload
    obtain ⟨v, htr, hout⟩ := third i rec1 hi
    obtain ⟨hloc, hname⟩ := try_from_record_ok_name_location htr
    refine ⟨v, ?_, hloc, ?_⟩
    · rw [hval]
      simpa using hout
    · rw [hname, hblank, hloc]
      simp

def recSampleB : ValidatorCsvRecord :=
  ValidatorCsvRecord.mk (some "node-b") (some "http://b.example") none none none (some "lab")

def recSampleF : ValidatorCsvRecord :=
  ValidatorCsvRecord.mk (some "   ") (some "http://f.example") none none none
    (some "Frankfurt 1")

def builtRegistryF : ValidatorRegistry :=
  ValidatorRegistry.mk
    [Validator.mk "node-a" "lab" (Url.mk "http" (some "a.example") (some 8899)),
     Validator.mk "node-b" "lab" (Url.mk "http" (some "b.example") (some 8899)),
     Validator.mk "frankfurt-1-3" "Frankfurt 1" (Url.mk "http" (some "f.example") (some 8899))]
    [("frankfurt-1-3", 2), ("node-b", 1), ("node-a", 0)]
    [("lab", [0, 1]), ("frankfurt 1", [2])]

/-- Witness for C9: loading three concrete rows, the third with a blank
name and location "Frankfurt 1", yields a third node named
`frankfurt-1-3` at ordinal 3. -/
theorem auto_generated_names_witness :
    ((∃ v, builtRegistryF.validators[2]? = some v ∧
        v.location = recLocation recSampleF ∧
        v.name = generate_default_name v.location (2 + 1)) ∧
     generate_default_name "Frankfurt 1" 3 = "frankfurt-1-3" ∧
     generate_default_name "" 1 = "validator-1") ∧
    builtRegistryF.validators[2]? =
      some (Validator.mk "frankfurt-1-3" "Frankfurt 1"
        (Url.mk "http" (some "f.example") (some 8899))) :=
  ⟨auto_generated_names parseSample [recSampleA, recSampleB, recSampleF] 2 recSampleF
      builtRegistryF (by decide) (by decide) (by decide),
    by decide⟩

/-! ## Forwarder lemmas -/

theorem proxy_rpc_ok_sel {r : ValidatorRegistry} {qv ql : Option String} {k : Nat}
    {body : List Nat} {up : Url → List Nat → UpstreamOutcome} {v : Validator}
    (hsel : r.select qv ql k = .ok v) :
    proxy_rpc r qv ql k body up =
      match up v.rpc_url body with
      | .sendError e => .error (.Upstream (upstreamUnavailableMsg v.name e))
      | .response status contentType ub =>
        match readLimited ub MAX_UPSTREAM_BODY with
        | .error e => .error (.Upstream (upstreamUnavailableMsg v.name e))
        | .ok bytes => .ok (HttpSuccess.mk status contentType bytes) := by
  unfold proxy_rpc
  rw [hsel]

theorem readLimited_ok_le {bytes : List Nat} {limit : Nat} (h : ¬ limit < bytes.length) :
    readLimited (.ok bytes) limit = .ok bytes := by
  show (if limit < bytes.length then (Except.error overflowMsg : Except String (List Nat))
    else .ok bytes) = .ok bytes
  rw [if_neg h]

theorem readLimited_ok_gt {bytes : List Nat} {limit : Nat} (h : limit < bytes.length) :
    readLimited (.ok bytes) limit = .error overflowMsg := by
  show (if limit < bytes.length then (Except.error overflowMsg : Except String (List Nat))
    else .ok bytes) = .error overflowMsg
  rw [if_pos h]

theorem proxy_rpc_response {r : ValidatorRegistry} {qv ql : Option String} {k : Nat}
    {body : List Nat} {up : Url → List Nat → UpstreamOutcome} {v : Validator}
    {status : Nat} {ct : Option String} {ub : UpstreamBody}
    (hsel : r.select qv ql k = .ok v)
    (hup : up v.rpc_url body = .response status ct ub) :
    proxy_rpc r qv ql k body up =
      match readLimited ub MAX_UPSTREAM_BODY with
      | .error e => .error (.Upstream (upstreamUnavailableMsg v.name e))
      | .ok bytes => .ok (HttpSuccess.mk status ct bytes) := by
  rw [proxy_rpc_ok_sel hsel, hup]

/-! ## C7: error responses -/

/-- C7: every error produced by the proxy handler maps to the
documented status code and the `{"error": message}` body shape; the
message carries the kind prefix of its variant, and forwarding failures
embed the selected node's name.  The status mapping of all four
`AppError` variants (400/400/502/500) is included. -/
theorem error_response_contract (r : ValidatorRegistry) (qv ql : Option String)
    (k : Nat) (body : List Nat) (up : Url → List Nat → UpstreamOutcome) (e : AppError)
    (h : proxy_rpc r qv ql k body up = .error e) :
    (∀ m, (AppError.BadRequest m).status_code = 400 ∧
       (AppError.Selection m).status_code = 400 ∧
       (AppError.Upstream m).status_code = 502 ∧
       (AppError.Internal m).status_code = 500) ∧
    (∀ e2, error_response e2 =
       (AppError.status_code e2, Json.obj [("error", Json.str (AppError.message e2))])) ∧
    ((∃ se, r.select qv ql k = .error se ∧ e = .Selection se.message ∧
        e.message = "validator selection failed: " ++ se.message ∧
        e.status_code = 400) ∨
     (∃ v rest, r.select qv ql k = .ok v ∧
        e = .Upstream (upstreamUnavailableMsg v.name rest) ∧
        e.message = "upstream request failed: " ++ upstreamUnavailableMsg v.name rest ∧
        e.status_code = 502 ∧
        ∃ pre post, e.message = pre ++ (v.name ++ post))) := by
  refine ⟨fun m => ⟨rfl, rfl, rfl, rfl⟩, fun e2 => rfl, ?_⟩
  unfold proxy_rpc at h
  split at h
  next se hse =>
    cases h
    exact Or.inl ⟨se, hse, rfl, rfl, rfl⟩
  next v hv =>
    split at h
    next msg hmsg =>
      cases h
      refine Or.inr ⟨v, msg, hv, rfl, rfl, rfl,
        "upstream request failed: " ++ ("node " ++ sq),
        sq ++ (" is unavailable: " ++ msg), ?_⟩
      simp only [AppError.message, upstreamUnavailableMsg, String.append_assoc]
    next status ct ub hresp =>
      split at h
      next e2 he2 =>
        cases h
        refine Or.inr ⟨v, e2, hv, rfl, rfl, rfl,
          "upstream request failed: " ++ ("node " ++ sq),
          sq ++ (" is unavailable: " ++ e2), ?_⟩
        simp only [AppError.message, upstreamUnavailableMsg, String.append_assoc]
      next bytes hbytes =>
        cases h

/-- Witness for C7: selecting an unknown validator name yields a
`Selection` error with the documented shape. -/
theorem error_response_contract_witness :
    (∀ m, (AppError.BadRequest m).status_code = 400 ∧
       (AppError.Selection m).status_code = 400 ∧
       (AppError.Upstream m).status_code = 502 ∧
       (AppError.Internal m).status_code = 500) ∧
    (∀ e2, error_response e2 =
       (AppError.status_code e2, Json.obj [("error", Json.str (AppError.message e2))])) ∧
    ((∃ se, sampleRegistry.select (some "nope") none 0 = .error se ∧
        AppError.Selection ((SelectionError.UnknownValidator "nope").message) =
          .Selection se.message ∧
        (AppError.Selection ((SelectionError.UnknownValidator "nope").message)).message =
          "validator selection failed: " ++ se.message ∧
        (AppError.Selection
          ((SelectionError.UnknownValidator "nope").message)).status_code = 400) ∨
     (∃ v rest, sampleRegistry.select (some "nope") none 0 = .ok v ∧
        AppError.Selection ((SelectionError.UnknownValidator "nope").message) =
          .Upstream (upstreamUnavailableMsg v.name rest) ∧
        (AppError.Selection ((SelectionError.UnknownValidator "nope").message)).message =
          "upstream request failed: " ++ upstreamUnavailableMsg v.name rest ∧
        (AppError.Selection
          ((SelectionError.UnknownValidator "nope").message)).status_code = 502 ∧
        ∃ pre post,
          (AppError.Selection ((SelectionError.UnknownValidator "nope").message)).message =
            pre ++ (v.name ++ post))) :=
  error_response_contract sampleRegistry (some "nope") none 0 []
    (fun _ _ => UpstreamOutcome.sendError "refused")
    (AppError.Selection ((SelectionError.UnknownValidator "nope").message))
    (by decide)

/-! ## C8: the 32 MiB upstream body cap -/

/-- C8: once a node is selected and the upstream responds, a body
larger than 32 MiB or a read error produces an `Upstream` failure
(status 502) naming the node, never a truncated success; any successful
relay carries the full body, which is within the cap. -/
theorem upstream_body_cap (r : ValidatorRegistry) (qv ql : Option String) (k : Nat)
    (body : List Nat) (up : Url → List Nat → UpstreamOutcome) (v : Validator)
    (status : Nat) (ct : Option String) (ub : UpstreamBody)
    (hsel : r.select qv ql k = .ok v)
    (hup : up v.rpc_url body = .response status ct ub) :
    (∀ bytes, ub = .ok bytes → MAX_UPSTREAM_BODY < bytes.length →
       proxy_rpc r qv ql k body up =
         .error (.Upstream (upstreamUnavailableMsg v.name overflowMsg)) ∧
       (AppError.Upstream (upstreamUnavailableMsg v.name overflowMsg)).status_code = 502) ∧
    (∀ m, ub = .readError m →
       proxy_rpc r qv ql k body up =
         .error (.Upstream (upstreamUnavailableMsg v.name m))) ∧
    (∀ resp, proxy_rpc r qv ql k body up = .ok resp →
       resp.body.length ≤ MAX_UPSTREAM_BODY ∧
       ∃ bytes, ub = .ok bytes ∧ resp.body = bytes ∧ resp.status = status) := by
  refine ⟨?_, ?_, ?_⟩
  · intro bytes hub hlen
    subst hub
    refine ⟨?_, rfl⟩
    rw [proxy_rpc_response hsel hup, readLimited_ok_gt hlen]
  · intro m hub
    subst hub
    rw [proxy_rpc_response hsel hup]
    rfl
  · intro resp hok
    rw [proxy_rpc_response hsel hup] at hok
    cases hrl : readLimited ub MAX_UPSTREAM_BODY with
    | error e2 =>
      rw [hrl] at hok
      cases hok
    | ok bytes =>
      rw [hrl] at hok
      cases hok
      cases hub : ub with
      | readError m =>
        rw [hub] at hrl
        cases hrl
      | ok bytes2 =>
        rw [hub] at hrl
        by_cases hlen : MAX_UPSTREAM_BODY < bytes2.length
        · rw [readLimited_ok_gt hlen] at hrl
          cases hrl
        · rw [readLimited_ok_le hlen] at hrl
          cases hrl
          refine ⟨?_, bytes, rfl, rfl, rfl⟩
          show bytes.length ≤ MAX_UPSTREAM_BODY
          omega

/-- An upstream model whose response body is one byte past the 32 MiB
cap. -/
def upOversized : Url → List Nat → UpstreamOutcome := fun _ _ =>
  .response 200 none (.ok (List.replicate (MAX_UPSTREAM_BODY + 1) 0))

/-- Witness for C8: a selected node and an oversized upstream response,
hypotheses discharged concretely. -/
theorem upstream_body_cap_witness :
    (∀ bytes, UpstreamBody.ok (List.replicate (MAX_UPSTREAM_BODY + 1) 0) = .ok bytes →
       MAX_UPSTREAM_BODY < bytes.length →
       proxy_rpc sampleRegistry (some "Foo") none 0 [] upOversized =
         .error (.Upstream (upstreamUnavailableMsg vFoo.name overflowMsg)) ∧
       (AppError.Upstream (upstreamUnavailableMsg vFoo.name overflowMsg)).status_code =
         502) ∧
    (∀ m, UpstreamBody.ok (List.replicate (MAX_UPSTREAM_BODY + 1) 0) = .readError m →
       proxy_rpc sampleRegistry (some "Foo") none 0 [] upOversized =
         .error (.Upstream (upstreamUnavailableMsg vFoo.name m))) ∧
    (∀ resp, proxy_rpc sampleRegistry (some "Foo") none 0 [] upOversized = .ok resp →
       resp.body.length ≤ MAX_UPSTREAM_BODY ∧
       ∃ bytes, UpstreamBody.ok (List.replicate (MAX_UPSTREAM_BODY + 1) 0) = .ok bytes ∧
         resp.body = bytes ∧ resp.status = 200) :=
  upstream_body_cap sampleRegistry (some "Foo") none 0 [] upOversized vFoo 200 none
    (.ok (List.replicate (MAX_UPSTREAM_BODY + 1) 0)) (by decide) rfl

/-! ## C1: method routing of `/` and forwarding on success -/

/-- C1 counterexample: `GET /` is wired to the static `index_info`
handler, not to the forwarding handler `proxy_rpc`, so the claim that
both GET and POST on `/` select and forward is false. -/
theorem get_root_not_proxy :
    route "/" Method.GET = some Handler.indexInfo ∧
    Handler.indexInfo ≠ Handler.proxyRpc := by
  decide

/-- C1 amended: only `POST /` is routed to the forwarding handler
(`GET /` serves the static service-info document); on selection success
with an in-cap upstream response, the relayed response keeps the
upstream status code, content type and body.  Query parameters are
read through the `validator`/`server` and `location`/`region`
aliases. -/
theorem post_root_proxies (r : ValidatorRegistry) (q : List (String × String)) (k : Nat)
    (body : List Nat) (up : Url → List Nat → UpstreamOutcome) (v : Validator)
    (status : Nat) (ct : Option String) (bytes : List Nat)
    (hsel : r.select (queryValidator q) (queryLocation q) k = .ok v)
    (hup : up v.rpc_url body = .response status ct (.ok bytes))
    (hlen : bytes.length ≤ MAX_UPSTREAM_BODY) :
    route "/" Method.POST = some Handler.proxyRpc ∧
    route "/" Method.GET = some Handler.indexInfo ∧
    route "/" Method.GET ≠ some Handler.proxyRpc ∧
    proxy_rpc r (queryValidator q) (queryLocation q) k body up =
      .ok (HttpSuccess.mk status ct bytes) := by
  refine ⟨by decide, by decide, by decide, ?_⟩
  rw [proxy_rpc_response hsel hup, readLimited_ok_le (by omega)]

/-- An upstream model echoing a fixed JSON body. -/
def upEcho : Url → List Nat → UpstreamOutcome := fun _ _ =>
  .response 200 (some "application/json") (.ok [123, 125])

/-- Witness for the amended C1: `?server=Foo` (the `server` alias)
selects the node named Foo and the relayed response keeps status 200
and the upstream body. -/
theorem post_root_proxies_witness :
    route "/" Method.POST = some Handler.proxyRpc ∧
    route "/" Method.GET = some Handler.indexInfo ∧
    route "/" Method.GET ≠ some Handler.proxyRpc ∧
    proxy_rpc sampleRegistry (queryValidator [("server", "Foo")])
        (queryLocation [("server", "Foo")]) 0 [123, 125] upEcho =
      .ok (HttpSuccess.mk 200 (some "application/json") [123, 125]) :=
  post_root_proxies sampleRegistry [("server", "Foo")] 0 [123, 125] upEcho vFoo 200
    (some "application/json") [123, 125] (by decide) rfl (by decide)

end SolanaApi
